import Mathlib

/-!
Verification of the note password-protection subsystem of the Playpower
note-taking app (EncryptionService and the lock/unlock state logic of the
main page component).

Byte buffers (`Uint8Array`) are modelled as `List Nat` with values `< 256`
stated as hypotheses where relevant.  The browser primitives `btoa`/`atob`
and `TextEncoder`/`TextDecoder` are deterministic standard algorithms and
are implemented here; the Web Crypto primitives (AES-GCM, PBKDF2, SHA-256)
are external black boxes and are modelled abstractly, with the standard
AEAD inverse property as a structure field.
-/

namespace Playpower

/-- Byte buffers (JS `Uint8Array` contents). -/
abbrev Bytes := List Nat

/-! ## Base64 (EncryptionService.toBase64 / fromBase64)

`toBase64` in the source is `btoa` applied to the byte string (the 32KB
chunking is only a call-stack workaround and has no semantic content);
`fromBase64` normalizes URL-safe characters, strips whitespace, fixes
padding, and then applies `atob` (the WHATWG forgiving-base64 decoder). -/

/-- Value of a base64 digit, as a character of the standard alphabet. -/
def sextetToChar (n : Nat) : Char :=
  if n < 26 then Char.ofNat (65 + n)
  else if n < 52 then Char.ofNat (71 + n)
  else if n < 62 then Char.ofNat (n - 4)
  else if n = 62 then '+'
  else '/'

/-- Inverse of `sextetToChar`: the base64 digit of a character, if any. -/
def charToSextet (c : Char) : Option Nat :=
  if 'A' ≤ c ∧ c ≤ 'Z' then some (c.toNat - 65)
  else if 'a' ≤ c ∧ c ≤ 'z' then some (c.toNat - 71)
  else if '0' ≤ c ∧ c ≤ '9' then some (c.toNat + 4)
  else if c = '+' then some 62
  else if c = '/' then some 63
  else none

/-- The 6-bit groups of a byte list, per the base64 encoding of btoa. -/
def encodeSextets : Bytes → List Nat
  | [] => []
  | [b1] => [b1 / 4, b1 % 4 * 16]
  | [b1, b2] => [b1 / 4, b1 % 4 * 16 + b2 / 16, b2 % 16 * 4]
  | b1 :: b2 :: b3 :: rest =>
      b1 / 4 :: (b1 % 4 * 16 + b2 / 16) :: (b2 % 16 * 4 + b3 / 64) :: b3 % 64 ::
        encodeSextets rest

/-- Number of `=` padding characters btoa appends. -/
def b64PadCount : Bytes → Nat
  | [] => 0
  | [_] => 2
  | [_, _] => 1
  | _ :: _ :: _ :: rest => b64PadCount rest

/-- `EncryptionService.toBase64`: standard padded base64 of a byte buffer
(the semantics of `btoa` over the binary string built from the bytes). -/
def toBase64 (bytes : Bytes) : String :=
  ⟨(encodeSextets bytes).map sextetToChar ++ List.replicate (b64PadCount bytes) '='⟩

/-- Remove at most two trailing `=` characters (forgiving-base64, step 2). -/
def dropPad (cs : List Char) : List Char :=
  match cs.reverse with
  | [] => cs
  | [c1] => if c1 = '=' then [] else cs
  | c1 :: c2 :: rest =>
    if c1 = '=' then
      if c2 = '=' then rest.reverse else (c2 :: rest).reverse
    else cs

/-- Decode base64 digits, failing on any character outside the alphabet. -/
def decodeSextets : List Char → Option (List Nat)
  | [] => some []
  | c :: cs =>
    match charToSextet c, decodeSextets cs with
    | some s, some ss => some (s :: ss)
    | _, _ => none

/-- Reassemble bytes from 6-bit groups; a single leftover digit is invalid,
and leftover low bits of a final partial group are discarded (as `atob`
does). -/
def sextetsToBytes : List Nat → Option Bytes
  | [] => some []
  | [_] => none
  | [s1, s2] => some [s1 * 4 + s2 / 16]
  | [s1, s2, s3] => some [s1 * 4 + s2 / 16, s2 % 16 * 16 + s3 / 4]
  | s1 :: s2 :: s3 :: s4 :: rest =>
      (sextetsToBytes rest).map
        (fun tail => (s1 * 4 + s2 / 16) :: (s2 % 16 * 16 + s3 / 4) :: (s3 % 4 * 64 + s4) :: tail)

/-- The WHATWG forgiving-base64 decoder backing `atob`: strip ASCII
whitespace, strip trailing padding when the length is a multiple of four,
then decode the digits. -/
def atob (s : String) : Option Bytes :=
  let cs := s.data.filter (fun c => !c.isWhitespace)
  let cs := if cs.length % 4 = 0 then dropPad cs else cs
  match decodeSextets cs with
  | none => none
  | some ss => sextetsToBytes ss

/-- The normalization performed by `EncryptionService.fromBase64` before
decoding: map URL-safe `-`/`_` to `+`/`/` and remove whitespace. -/
def normalizeB64 (s : String) : String :=
  let s1 := s.data.map (fun c => if c = '-' then '+' else c)
  let s2 := s1.map (fun c => if c = '_' then '/' else c)
  ⟨s2.filter (fun c => !c.isWhitespace)⟩

/-- The padding fix performed by `EncryptionService.fromBase64`. -/
def padB64 (s : String) : String :=
  let pad := s.length % 4
  if pad = 0 then s else s ++ ⟨List.replicate (4 - pad) '='⟩

/-- `EncryptionService.fromBase64`: normalize then decode; `none` models the
`atob` exception propagating out. -/
def fromBase64 (b64 : String) : Option Bytes :=
  atob (padB64 (normalizeB64 b64))

/-! ### Base64 round-trip lemmas -/

theorem charToSextet_sextetToChar : ∀ n < 64, charToSextet (sextetToChar n) = some n := by
  decide

theorem sextetToChar_not_special :
    ∀ n < 64, sextetToChar n ≠ '-' ∧ sextetToChar n ≠ '_' ∧
      sextetToChar n ≠ '=' ∧ (sextetToChar n).isWhitespace = false := by
  decide

theorem encodeSextets_lt (bs : Bytes) (h : ∀ b ∈ bs, b < 256) :
    ∀ s ∈ encodeSextets bs, s < 64 := by
  induction bs using encodeSextets.induct with
  | case1 => simp [encodeSextets]
  | case2 b1 =>
    have hb1 := h b1 (by simp)
    simp only [encodeSextets, List.mem_cons, List.not_mem_nil, or_false]
    rintro s (rfl | rfl) <;> omega
  | case3 b1 b2 =>
    have hb1 := h b1 (by simp)
    have hb2 := h b2 (by simp)
    simp only [encodeSextets, List.mem_cons, List.not_mem_nil, or_false]
    rintro s (rfl | rfl | rfl) <;> omega
  | case4 b1 b2 b3 rest ih =>
    have hb1 := h b1 (by simp)
    have hb2 := h b2 (by simp)
    have hb3 := h b3 (by simp)
    have hrest : ∀ b ∈ rest, b < 256 := fun b hb => h b (by simp [hb])
    simp only [encodeSextets, List.mem_cons]
    rintro s (rfl | rfl | rfl | rfl | hs)
    · omega
    · omega
    · omega
    · omega
    · exact ih hrest s hs

theorem decodeSextets_map (ss : List Nat) (h : ∀ s ∈ ss, s < 64) :
    decodeSextets (ss.map sextetToChar) = some ss := by
  induction ss with
  | nil => rfl
  | cons s ss ih =>
    have hs := h s (by simp)
    have htail : ∀ x ∈ ss, x < 64 := fun x hx => h x (by simp [hx])
    simp [decodeSextets, charToSextet_sextetToChar s hs, ih htail]

theorem sextetsToBytes_encodeSextets (bs : Bytes) (h : ∀ b ∈ bs, b < 256) :
    sextetsToBytes (encodeSextets bs) = some bs := by
  induction bs using encodeSextets.induct with
  | case1 => rfl
  | case2 b1 =>
    have hb1 := h b1 (by simp)
    have e1 : b1 / 4 * 4 + b1 % 4 * 16 / 16 = b1 := by omega
    simp only [encodeSextets, sextetsToBytes, e1]
  | case3 b1 b2 =>
    have hb1 := h b1 (by simp)
    have hb2 := h b2 (by simp)
    have e1 : b1 / 4 * 4 + (b1 % 4 * 16 + b2 / 16) / 16 = b1 := by omega
    have e2 : (b1 % 4 * 16 + b2 / 16) % 16 * 16 + b2 % 16 * 4 / 4 = b2 := by omega
    simp only [encodeSextets, sextetsToBytes, e1, e2]
  | case4 b1 b2 b3 rest ih =>
    have hb1 := h b1 (by simp)
    have hb2 := h b2 (by simp)
    have hb3 := h b3 (by simp)
    have hrest : ∀ b ∈ rest, b < 256 := fun b hb => h b (by simp [hb])
    have e1 : b1 / 4 * 4 + (b1 % 4 * 16 + b2 / 16) / 16 = b1 := by omega
    have e2 : (b1 % 4 * 16 + b2 / 16) % 16 * 16 + (b2 % 16 * 4 + b3 / 64) / 4 = b2 := by
      omega
    have e3 : (b2 % 16 * 4 + b3 / 64) % 4 * 64 + b3 % 64 = b3 := by omega
    simp only [encodeSextets, sextetsToBytes, ih hrest, e1, e2, e3]
    rfl

theorem b64PadCount_le (bs : Bytes) : b64PadCount bs ≤ 2 := by
  induction bs using b64PadCount.induct with
  | case1 => simp [b64PadCount]
  | case2 => simp [b64PadCount]
  | case3 => simp [b64PadCount]
  | case4 b1 b2 b3 rest ih => simpa [b64PadCount] using ih

theorem encodeSextets_add_pad_mod (bs : Bytes) :
    ((encodeSextets bs).length + b64PadCount bs) % 4 = 0 := by
  induction bs using encodeSextets.induct with
  | case1 => simp [encodeSextets, b64PadCount]
  | case2 b1 => simp [encodeSextets, b64PadCount]
  | case3 b1 b2 => simp [encodeSextets, b64PadCount]
  | case4 b1 b2 b3 rest ih =>
    simp only [encodeSextets, b64PadCount, List.length_cons] at ih ⊢
    omega

theorem dropPad_append (A : List Char) (k : Nat) (hk : k ≤ 2)
    (hA : ∀ c ∈ A, c ≠ '=') : dropPad (A ++ List.replicate k '=') = A := by
  have hmem : ∀ c ∈ A.reverse, c ≠ '=' := fun c hc => hA c (List.mem_reverse.mp hc)
  interval_cases k
  · simp only [List.replicate_zero, List.append_nil]
    unfold dropPad
    rcases hrev : A.reverse with _ | ⟨c1, rest⟩
    · rfl
    · have hc1 : c1 ≠ '=' := hmem c1 (by rw [hrev]; simp)
      rcases rest with _ | ⟨c2, rest2⟩
      · simp [hc1]
      · simp [hc1]
  · unfold dropPad
    rw [List.reverse_append]
    rcases hrev : A.reverse with _ | ⟨c2, rest⟩
    · have : A = [] := by simpa using congrArg List.reverse hrev
      subst this
      simp
    · have hc2 : c2 ≠ '=' := hmem c2 (by rw [hrev]; simp)
      simp only [List.replicate_one, List.reverse_cons, List.reverse_nil, List.nil_append,
        List.singleton_append]
      have hAeq : A = rest.reverse ++ [c2] := by
        have := congrArg List.reverse hrev
        simpa using this
      simp [hc2, hAeq]
  · unfold dropPad
    rw [List.reverse_append]
    simp only [List.replicate, List.reverse_cons, List.reverse_nil, List.nil_append,
      List.append_assoc, List.singleton_append]
    simp

theorem filter_ws_fix (cs : List Char) (h : ∀ c ∈ cs, c.isWhitespace = false) :
    cs.filter (fun c => !c.isWhitespace) = cs := by
  apply List.filter_eq_self.mpr
  intro c hc
  simp [h c hc]

theorem toBase64_chars (bs : Bytes) :
    (toBase64 bs).data =
      (encodeSextets bs).map sextetToChar ++ List.replicate (b64PadCount bs) '=' := rfl

theorem mem_toBase64_chars (bs : Bytes) (h : ∀ b ∈ bs, b < 256) :
    ∀ c ∈ (toBase64 bs).data,
      (∃ s < 64, c = sextetToChar s) ∨ c = '=' := by
  intro c hc
  rw [toBase64_chars] at hc
  rcases List.mem_append.mp hc with hc | hc
  · rcases List.mem_map.mp hc with ⟨s, hs, rfl⟩
    exact Or.inl ⟨s, encodeSextets_lt bs h s hs, rfl⟩
  · exact Or.inr (List.eq_of_mem_replicate hc)

theorem toBase64_no_ws (bs : Bytes) (h : ∀ b ∈ bs, b < 256) :
    ∀ c ∈ (toBase64 bs).data, c.isWhitespace = false := by
  intro c hc
  rcases mem_toBase64_chars bs h c hc with ⟨s, hs, rfl⟩ | rfl
  · exact (sextetToChar_not_special s hs).2.2.2
  · decide

theorem toBase64_length_mod (bs : Bytes) : (toBase64 bs).length % 4 = 0 := by
  have : (toBase64 bs).length =
      (encodeSextets bs).length + b64PadCount bs := by
    simp [toBase64, String.length]
  rw [this]
  exact encodeSextets_add_pad_mod bs

theorem atob_toBase64 (bs : Bytes) (h : ∀ b ∈ bs, b < 256) :
    atob (toBase64 bs) = some bs := by
  have hlen : (toBase64 bs).data.length % 4 = 0 := toBase64_length_mod bs
  simp only [atob]
  rw [filter_ws_fix _ (toBase64_no_ws bs h)]
  rw [if_pos hlen, toBase64_chars]
  rw [dropPad_append _ _ (b64PadCount_le bs)
    (by
      intro c hc
      rcases List.mem_map.mp hc with ⟨s, hs, rfl⟩
      exact (sextetToChar_not_special s (encodeSextets_lt bs h s hs)).2.2.1)]
  rw [decodeSextets_map _ (encodeSextets_lt bs h)]
  exact sextetsToBytes_encodeSextets bs h

theorem map_fix {f : Char → Char} :
    ∀ (l : List Char), (∀ c ∈ l, f c = c) → l.map f = l := by
  intro l h
  induction l with
  | nil => rfl
  | cons c cs ih =>
    simp only [List.map_cons, h c (by simp), List.cons.injEq, true_and]
    exact ih (fun x hx => h x (by simp [hx]))

theorem normalizeB64_toBase64 (bs : Bytes) (h : ∀ b ∈ bs, b < 256) :
    normalizeB64 (toBase64 bs) = toBase64 bs := by
  have hchars := mem_toBase64_chars bs h
  have h1 : (toBase64 bs).data.map (fun c => if c = '-' then '+' else c) =
      (toBase64 bs).data := by
    apply map_fix
    intro c hc
    rcases hchars c hc with ⟨s, hs, rfl⟩ | rfl
    · simp [(sextetToChar_not_special s hs).1]
    · decide
  have h2 : (toBase64 bs).data.map (fun c => if c = '_' then '/' else c) =
      (toBase64 bs).data := by
    apply map_fix
    intro c hc
    rcases hchars c hc with ⟨s, hs, rfl⟩ | rfl
    · simp [(sextetToChar_not_special s hs).2.1]
    · decide
  simp only [normalizeB64]
  rw [h1, h2, filter_ws_fix _ (toBase64_no_ws bs h)]

theorem padB64_toBase64 (bs : Bytes) : padB64 (toBase64 bs) = toBase64 bs := by
  unfold padB64
  rw [if_pos (toBase64_length_mod bs)]

/-- Round trip of the repository base64 helpers: decoding an encoded byte
buffer returns it unchanged. -/
theorem fromBase64_toBase64 (bs : Bytes) (h : ∀ b ∈ bs, b < 256) :
    fromBase64 (toBase64 bs) = some bs := by
  unfold fromBase64
  rw [normalizeB64_toBase64 bs h, padB64_toBase64 bs]
  exact atob_toBase64 bs h

/-! ## UTF-8 (TextEncoder / TextDecoder)

`TextEncoder.encode` produces the UTF-8 bytes of the string;
`TextDecoder.decode` is modelled as the strict standard UTF-8 decoder
(we only apply it to byte buffers produced by an AEAD decryption of an
encoded plaintext, where it cannot fail). -/

/-- UTF-8 encoding of one unicode scalar value. -/
def utf8EncodeChar (n : Nat) : Bytes :=
  if n < 0x80 then [n]
  else if n < 0x800 then [0xC0 + n / 64, 0x80 + n % 64]
  else if n < 0x10000 then [0xE0 + n / 4096, 0x80 + n / 64 % 64, 0x80 + n % 64]
  else [0xF0 + n / 262144, 0x80 + n / 4096 % 64, 0x80 + n / 64 % 64, 0x80 + n % 64]

/-- `TextEncoder.encode`: UTF-8 bytes of a string. -/
def utf8Encode (s : String) : Bytes :=
  (s.data.map (fun c => utf8EncodeChar c.toNat)).flatten

/-- Strict UTF-8 decoding to a list of unicode scalar values. -/
def utf8DecodeAux : Bytes → Option (List Nat)
  | [] => some []
  | b1 :: rest =>
    if b1 < 0x80 then (utf8DecodeAux rest).map (b1 :: ·)
    else
      match rest with
      | [] => none
      | b2 :: rest2 =>
        if b1 < 0xE0 then
          if 0xC2 ≤ b1 ∧ 0x80 ≤ b2 ∧ b2 < 0xC0 then
            (utf8DecodeAux rest2).map (((b1 - 0xC0) * 64 + (b2 - 0x80)) :: ·)
          else none
        else
          match rest2 with
          | [] => none
          | b3 :: rest3 =>
            if b1 < 0xF0 then
              if (0x80 ≤ b2 ∧ b2 < 0xC0 ∧ 0x80 ≤ b3 ∧ b3 < 0xC0) ∧
                  (b1 ≠ 0xE0 ∨ 0xA0 ≤ b2) ∧ (b1 ≠ 0xED ∨ b2 < 0xA0) then
                (utf8DecodeAux rest3).map
                  (((b1 - 0xE0) * 4096 + (b2 - 0x80) * 64 + (b3 - 0x80)) :: ·)
              else none
            else
              match rest3 with
              | [] => none
              | b4 :: rest4 =>
                if (b1 < 0xF5 ∧ 0x80 ≤ b2 ∧ b2 < 0xC0 ∧ 0x80 ≤ b3 ∧ b3 < 0xC0 ∧
                    0x80 ≤ b4 ∧ b4 < 0xC0) ∧
                    (b1 ≠ 0xF0 ∨ 0x90 ≤ b2) ∧ (b1 ≠ 0xF4 ∨ b2 < 0x90) then
                  (utf8DecodeAux rest4).map
                    (((b1 - 0xF0) * 262144 + (b2 - 0x80) * 4096 +
                      (b3 - 0x80) * 64 + (b4 - 0x80)) :: ·)
                else none

/-- `TextDecoder.decode`, strict. -/
def utf8Decode (bs : Bytes) : Option String :=
  (utf8DecodeAux bs).map (fun cps => ⟨cps.map Char.ofNat⟩)

theorem char_ofNat_toNat (c : Char) : Char.ofNat c.toNat = c := by
  have h : Nat.isValidChar c.toNat := c.valid
  unfold Char.ofNat
  rw [dif_pos h]
  rfl

theorem utf8EncodeChar_lt (n : Nat) (h : n < 0x110000) :
    ∀ b ∈ utf8EncodeChar n, b < 256 := by
  intro b hb
  unfold utf8EncodeChar at hb
  split at hb
  · simp at hb
    omega
  · split at hb
    · simp at hb
      rcases hb with rfl | rfl <;> omega
    · split at hb
      · simp at hb
        rcases hb with rfl | rfl | rfl <;> omega
      · simp at hb
        rcases hb with rfl | rfl | rfl | rfl <;> omega

set_option maxRecDepth 8192 in
theorem utf8DecodeAux_encodeChar (n : Nat) (h : Nat.isValidChar n) (rest : Bytes) :
    utf8DecodeAux (utf8EncodeChar n ++ rest) = (utf8DecodeAux rest).map (n :: ·) := by
  have hv : n < 0xd800 ∨ (0xdfff < n ∧ n < 0x110000) := h
  by_cases h1 : n < 0x80
  · have e : utf8EncodeChar n = [n] := by simp [utf8EncodeChar, h1]
    rw [e, List.cons_append, List.nil_append]
    rcases rest with _ | ⟨r1, _ | ⟨r2, _ | ⟨r3, rest4⟩⟩⟩ <;>
      · simp only [utf8DecodeAux]
        split_ifs <;> first
          | rfl
          | (exfalso; omega)
          | (congr 1; funext x; simp only [List.cons.injEq, and_true]; omega)
  · by_cases h2 : n < 0x800
    · have e : utf8EncodeChar n = [0xC0 + n / 64, 0x80 + n % 64] := by
        simp [utf8EncodeChar, h1, h2]
      rw [e, List.cons_append, List.cons_append, List.nil_append]
      rcases rest with _ | ⟨r1, _ | ⟨r2, rest3⟩⟩ <;>
        · simp only [utf8DecodeAux]
          split_ifs <;> first
            | rfl
            | (exfalso; omega)
            | (congr 1; funext x; simp only [List.cons.injEq, and_true]; omega)
    · by_cases h3 : n < 0x10000
      · have e : utf8EncodeChar n =
            [0xE0 + n / 4096, 0x80 + n / 64 % 64, 0x80 + n % 64] := by
          simp [utf8EncodeChar, h1, h2, h3]
        rw [e, List.cons_append, List.cons_append, List.cons_append, List.nil_append]
        rcases rest with _ | ⟨r1, rest2⟩ <;>
          · simp only [utf8DecodeAux]
            split_ifs <;> first
              | rfl
              | (exfalso; omega)
              | (congr 1; funext x; simp only [List.cons.injEq, and_true]; omega)
      · have e : utf8EncodeChar n =
            [0xF0 + n / 262144, 0x80 + n / 4096 % 64, 0x80 + n / 64 % 64, 0x80 + n % 64] := by
          simp [utf8EncodeChar, h1, h2, h3]
        rw [e, List.cons_append, List.cons_append, List.cons_append, List.cons_append,
          List.nil_append]
        simp only [utf8DecodeAux]
        split_ifs <;> first
          | rfl
          | (exfalso; omega)
          | (congr 1; funext x; simp only [List.cons.injEq, and_true]; omega)

theorem utf8DecodeAux_encode (l : List Char) :
    utf8DecodeAux ((l.map (fun c => utf8EncodeChar c.toNat)).flatten) =
      some (l.map Char.toNat) := by
  induction l with
  | nil => rfl
  | cons c cs ih =>
    simp only [List.map_cons, List.flatten_cons]
    rw [utf8DecodeAux_encodeChar c.toNat c.valid, ih]
    rfl

/-- Round trip of the text codec: decoding the UTF-8 encoding of a string
returns the string. -/
theorem utf8Decode_utf8Encode (s : String) : utf8Decode (utf8Encode s) = some s := by
  unfold utf8Decode utf8Encode
  rw [utf8DecodeAux_encode]
  simp only [Option.map_some']
  congr 1
  rw [List.map_map]
  have : (s.data.map (Char.ofNat ∘ Char.toNat)) = s.data.map id := by
    apply List.map_congr_left
    intro c _
    exact char_ofNat_toNat c
  rw [this, List.map_id]

theorem utf8Encode_lt (s : String) : ∀ b ∈ utf8Encode s, b < 256 := by
  intro b hb
  unfold utf8Encode at hb
  rcases List.mem_flatten.mp hb with ⟨l, hl, hbl⟩
  rcases List.mem_map.mp hl with ⟨c, _, rfl⟩
  have hc : c.toNat < 0x110000 := by
    have h : c.toNat < 0xd800 ∨ (0xdfff < c.toNat ∧ c.toNat < 0x110000) := c.valid
    omega
  exact utf8EncodeChar_lt c.toNat hc b hbl

/-! ## Web Crypto model (EncryptionService.deriveKey / encrypt / decrypt / hashPassword)

AES-256-GCM and PBKDF2 are platform primitives.  The derived key is
modelled as an opaque byte string produced by an abstract `pbkdf2`
function of the password and salt (deterministic, per the spec); the AEAD
cipher is an abstract structure whose `dec_enc` field is the standard AEAD
inverse property that AES-GCM satisfies.  The parameters the source
passes to `crypto.subtle.deriveKey` are transcribed literally in
`deriveKey` below. -/

/-- The `Pbkdf2Params` dictionary the source builds for `deriveKey`. -/
structure Pbkdf2Params where
  name : String
  salt : Bytes
  iterations : Nat
  hash : String
deriving Repr, DecidableEq

/-- The derived-key algorithm dictionary (`AesKeyGenParams`). -/
structure AesKeyGenParams where
  name : String
  length : Nat
deriving Repr, DecidableEq

/-- The full argument list of the `crypto.subtle.deriveKey` call. -/
structure DeriveKeyRequest where
  algorithm : Pbkdf2Params
  derivedKeyType : AesKeyGenParams
  extractable : Bool
  keyUsages : List String
deriving Repr, DecidableEq

/-- `EncryptionService.deriveKey`: the exact parameters the source passes
to `crypto.subtle.deriveKey` for a given password and salt. -/
def deriveKey (_password : String) (salt : Bytes) : DeriveKeyRequest :=
  { algorithm := { name := "PBKDF2", salt := salt, iterations := 100000, hash := "SHA-256" }
    derivedKeyType := { name := "AES-GCM", length := 256 }
    extractable := false
    keyUsages := ["encrypt", "decrypt"] }

/-- Abstract AEAD cipher (`crypto.subtle.encrypt` / `crypto.subtle.decrypt`
with AES-GCM): `enc key iv plaintext` yields ciphertext-with-tag, `dec`
verifies and inverts it.  `dec_enc` is the inverse property, `enc_lt`
says the ciphertext consists of bytes. -/
structure AEAD where
  enc : Bytes → Bytes → Bytes → Bytes
  dec : Bytes → Bytes → Bytes → Option Bytes
  dec_enc : ∀ key iv pt, dec key iv (enc key iv pt) = some pt
  enc_lt : ∀ key iv pt, (∀ b ∈ pt, b < 256) → ∀ b ∈ enc key iv pt, b < 256

/-- The external cryptographic primitives used by `EncryptionService`:
an AEAD cipher, the PBKDF2 key material (a deterministic function of
password and salt) and the SHA-256 digest function. -/
structure CryptoPrims where
  aead : AEAD
  pbkdf2 : String → Bytes → Bytes
  sha256 : String → Bytes

/-- The envelope split performed at the start of
`EncryptionService.decrypt`: `combined.slice(0, 16)`,
`combined.slice(16, 28)`, `combined.slice(28)`. -/
def splitEnvelope (combined : Bytes) : Bytes × Bytes × Bytes :=
  (combined.take 16, (combined.drop 16).take 12, combined.drop 28)

/-- `EncryptionService.encrypt`: derive a key from the password and the
(randomly generated) salt, AEAD-encrypt the UTF-8 plaintext under the
(randomly generated) 12-byte iv, and base64-encode
`salt || iv || ciphertext`.  The randomness of `crypto.getRandomValues`
is modelled by taking `salt` and `iv` as parameters. -/
def encrypt (P : CryptoPrims) (salt iv : Bytes) (content password : String) : String :=
  let key := P.pbkdf2 password salt
  let encrypted := P.aead.enc key iv (utf8Encode content)
  toBase64 (salt ++ iv ++ encrypted)

/-- The single error message thrown by `EncryptionService.decrypt`; every
failure path is collapsed to it by the surrounding `try`/`catch`. -/
def decryptErrorMsg : String := "Invalid password or corrupted data"

/-- `EncryptionService.decrypt`: base64-decode, split at offsets 16 and
28, derive a key from the extracted salt, AEAD-decrypt and UTF-8-decode.
All failures surface as the single generic error. -/
def decrypt (P : CryptoPrims) (encryptedContent password : String) : Except String String :=
  match fromBase64 encryptedContent with
  | none => .error decryptErrorMsg
  | some combined =>
    let (salt, iv, encrypted) := splitEnvelope combined
    let key := P.pbkdf2 password salt
    match P.aead.dec key iv encrypted with
    | none => .error decryptErrorMsg
    | some decrypted =>
      match utf8Decode decrypted with
      | none => .error decryptErrorMsg
      | some s => .ok s

/-- `EncryptionService.hashPassword`: base64 of the SHA-256 digest of the
password. -/
def hashPassword (P : CryptoPrims) (password : String) : String :=
  toBase64 (P.sha256 password)

/-! ### Pipeline lemmas -/

theorem splitEnvelope_append (salt iv ct : Bytes)
    (hs : salt.length = 16) (hi : iv.length = 12) :
    splitEnvelope (salt ++ iv ++ ct) = (salt, iv, ct) := by
  unfold splitEnvelope
  have h1 : (salt ++ iv ++ ct).take 16 = salt := by
    rw [List.append_assoc, List.take_append_of_le_length (by omega)]
    rw [List.take_of_length_le (by omega)]
  have h2 : ((salt ++ iv ++ ct).drop 16).take 12 = iv := by
    rw [List.append_assoc, List.drop_append_of_le_length (by omega)]
    rw [List.drop_of_length_le (by omega), List.nil_append]
    rw [List.take_append_of_le_length (by omega), List.take_of_length_le (by omega)]
  have h3 : (salt ++ iv ++ ct).drop 28 = ct := by
    rw [List.drop_append_eq_append_drop]
    rw [List.drop_of_length_le (by simp [hs, hi])]
    simp [hs, hi]
  rw [h1, h2, h3]

theorem encrypt_combined_lt (P : CryptoPrims) (salt iv : Bytes) (content password : String)
    (hsb : ∀ b ∈ salt, b < 256) (hib : ∀ b ∈ iv, b < 256) :
    ∀ b ∈ salt ++ iv ++ P.aead.enc (P.pbkdf2 password salt) iv (utf8Encode content),
      b < 256 := by
  intro b hb
  rcases List.mem_append.mp hb with hb | hb
  · rcases List.mem_append.mp hb with hb | hb
    · exact hsb b hb
    · exact hib b hb
  · exact P.aead.enc_lt _ _ _ (utf8Encode_lt content) b hb

/-- Round trip of the full `EncryptionService` pipeline. -/
theorem decrypt_encrypt (P : CryptoPrims) (salt iv : Bytes) (content password : String)
    (hs : salt.length = 16) (hi : iv.length = 12)
    (hsb : ∀ b ∈ salt, b < 256) (hib : ∀ b ∈ iv, b < 256) :
    decrypt P (encrypt P salt iv content password) password = .ok content := by
  simp only [encrypt, decrypt]
  rw [fromBase64_toBase64 _ (encrypt_combined_lt P salt iv content password hsb hib)]
  simp only [splitEnvelope_append _ _ _ hs hi, P.aead.dec_enc, utf8Decode_utf8Encode]

theorem decrypt_ok_or_generic_error (P : CryptoPrims) (encryptedContent password : String) :
    (∃ s, decrypt P encryptedContent password = .ok s) ∨
      decrypt P encryptedContent password = .error decryptErrorMsg := by
  unfold decrypt
  rcases h1 : fromBase64 encryptedContent with _ | combined
  · exact Or.inr rfl
  · rcases h2 : P.aead.dec (P.pbkdf2 password ((splitEnvelope combined).1))
        ((splitEnvelope combined).2.1) ((splitEnvelope combined).2.2) with _ | decrypted
    · right
      simp only [splitEnvelope] at h2 ⊢
      simp [h2, splitEnvelope]
    · rcases h3 : utf8Decode decrypted with _ | s
      · right
        simp only [splitEnvelope] at h2 ⊢
        simp [h2, h3, splitEnvelope]
      · left
        refine ⟨s, ?_⟩
        simp only [splitEnvelope] at h2 ⊢
        simp [h2, h3, splitEnvelope]

theorem decrypt_malformed (P : CryptoPrims) (encryptedContent password : String)
    (h : fromBase64 encryptedContent = none) :
    decrypt P encryptedContent password = .error decryptErrorMsg := by
  unfold decrypt
  rw [h]

/-! ### URL-safe tolerance and standard output (for the base64 interface claims) -/

/-- Test transform: rewrite a standard base64 string into its URL-safe,
unpadded variant (`+`→`-`, `/`→`_`, padding removed). -/
def toUrlSafeUnpadded (s : String) : String :=
  ⟨s.data.filterMap (fun c =>
    if c = '=' then none
    else if c = '+' then some '-'
    else if c = '/' then some '_'
    else some c)⟩

/-- The URL-safe image of a base64 digit. -/
def uChar (c : Char) : Char :=
  if c = '+' then '-' else if c = '/' then '_' else c

theorem filterMap_eq_map {f : Char → Option Char} {g : Char → Char} :
    ∀ (l : List Char), (∀ c ∈ l, f c = some (g c)) → l.filterMap f = l.map g := by
  intro l h
  induction l with
  | nil => rfl
  | cons c cs ih =>
    rw [List.filterMap_cons, h c (by simp), List.map_cons,
      ih (fun x hx => h x (by simp [hx]))]

theorem filterMap_replicate_eq_nil {f : Char → Option Char} (k : Nat)
    (h : f '=' = none) : (List.replicate k '=').filterMap f = [] := by
  induction k with
  | zero => rfl
  | succ n ih => rw [List.replicate_succ, List.filterMap_cons, h, ih]

theorem toUrlSafeUnpadded_toBase64 (bs : Bytes) (h : ∀ b ∈ bs, b < 256) :
    (toUrlSafeUnpadded (toBase64 bs)).data =
      (encodeSextets bs).map (fun n => uChar (sextetToChar n)) := by
  have hlt := encodeSextets_lt bs h
  unfold toUrlSafeUnpadded
  rw [toBase64_chars, List.filterMap_append]
  rw [filterMap_replicate_eq_nil _ (by decide), List.append_nil]
  have hfm : ((encodeSextets bs).map sextetToChar).filterMap
      (fun c => if c = '=' then none
        else if c = '+' then some '-'
        else if c = '/' then some '_'
        else some c) = ((encodeSextets bs).map sextetToChar).map uChar := by
    apply filterMap_eq_map
    intro c hc
    rcases List.mem_map.mp hc with ⟨n, hn, rfl⟩
    have hsp := sextetToChar_not_special n (hlt n hn)
    by_cases hp : sextetToChar n = '+'
    · simp [uChar, hp]
    · by_cases hsl : sextetToChar n = '/'
      · simp [uChar, hp, hsl]
      · simp [uChar, hsp.2.2.1, hp, hsl]
  rw [hfm, List.map_map]
  rfl

theorem urlsafe_restore :
    ∀ n < 64, (fun c => if c = '_' then '/' else c)
        ((fun c => if c = '-' then '+' else c) (uChar (sextetToChar n))) =
      sextetToChar n := by
  decide

theorem uChar_not_ws : ∀ n < 64, (uChar (sextetToChar n)).isWhitespace = false := by
  decide

theorem normalizeB64_toUrlSafeUnpadded (bs : Bytes) (h : ∀ b ∈ bs, b < 256) :
    normalizeB64 (toUrlSafeUnpadded (toBase64 bs)) =
      ⟨(encodeSextets bs).map sextetToChar⟩ := by
  have hlt := encodeSextets_lt bs h
  apply String.ext
  show (((toUrlSafeUnpadded (toBase64 bs)).data.map
      (fun c => if c = '-' then '+' else c)).map
      (fun c => if c = '_' then '/' else c)).filter (fun c => !c.isWhitespace) =
    (encodeSextets bs).map sextetToChar
  rw [toUrlSafeUnpadded_toBase64 bs h, List.map_map, List.map_map]
  have hmap : (encodeSextets bs).map
      (((fun c => if c = '_' then '/' else c) ∘
        (fun c => if c = '-' then '+' else c)) ∘ fun n => uChar (sextetToChar n)) =
      (encodeSextets bs).map sextetToChar := by
    apply List.map_congr_left
    intro n hn
    exact urlsafe_restore n (hlt n hn)
  rw [hmap]
  apply filter_ws_fix
  intro c hc
  rcases List.mem_map.mp hc with ⟨n, hn, rfl⟩
  exact (sextetToChar_not_special n (hlt n hn)).2.2.2

theorem padB64_unpadded (bs : Bytes) :
    padB64 ⟨(encodeSextets bs).map sextetToChar⟩ = toBase64 bs := by
  have hmod := encodeSextets_add_pad_mod bs
  have hk := b64PadCount_le bs
  unfold padB64 toBase64
  simp only [String.length]
  by_cases h0 : b64PadCount bs = 0
  · rw [h0] at hmod
    have hlen : ((encodeSextets bs).map sextetToChar).length % 4 = 0 := by
      simp only [List.length_map]
      omega
    rw [if_pos hlen, h0, List.replicate_zero, List.append_nil]
  · have hlen : ((encodeSextets bs).map sextetToChar).length % 4 ≠ 0 := by
      simp only [List.length_map]
      omega
    rw [if_neg hlen]
    have hrep : 4 - ((encodeSextets bs).map sextetToChar).length % 4 = b64PadCount bs := by
      simp only [List.length_map]
      omega
    rw [hrep]
    rfl

/-- URL-safe, unpadded input is decoded to the same bytes as the standard
padded encoding. -/
theorem fromBase64_urlSafe (bs : Bytes) (h : ∀ b ∈ bs, b < 256) :
    fromBase64 (toUrlSafeUnpadded (toBase64 bs)) = some bs := by
  unfold fromBase64
  rw [normalizeB64_toUrlSafeUnpadded bs h, padB64_unpadded bs]
  exact atob_toBase64 bs h

/-- Standard padded base64: length a multiple of four, every character a
base64 digit or `=`, and all characters before the trailing padding are
digits. -/
def isStandardPaddedBase64 (s : String) : Bool :=
  (s.length % 4 == 0) &&
    s.data.all (fun c => (charToSextet c).isSome || c = '=') &&
    (dropPad s.data).all (fun c => (charToSextet c).isSome)

theorem charToSextet_isSome : ∀ n < 64, (charToSextet (sextetToChar n)).isSome = true := by
  decide

theorem toBase64_standard (bs : Bytes) (h : ∀ b ∈ bs, b < 256) :
    isStandardPaddedBase64 (toBase64 bs) = true := by
  have hlt := encodeSextets_lt bs h
  unfold isStandardPaddedBase64
  simp only [Bool.and_eq_true, beq_iff_eq]
  refine ⟨⟨?_, ?_⟩, ?_⟩
  · exact toBase64_length_mod bs
  · rw [List.all_eq_true]
    intro c hc
    rcases mem_toBase64_chars bs h c hc with ⟨n, hn, rfl⟩ | rfl
    · simp [charToSextet_isSome n hn]
    · simp
  · rw [toBase64_chars, dropPad_append _ _ (b64PadCount_le bs)
      (fun c hc => by
        rcases List.mem_map.mp hc with ⟨n, hn, rfl⟩
        exact (sextetToChar_not_special n (hlt n hn)).2.2.1)]
    rw [List.all_eq_true]
    intro c hc
    rcases List.mem_map.mp hc with ⟨n, hn, rfl⟩
    simp [charToSextet_isSome n (hlt n hn)]

/-! ### A concrete AEAD instance

Used only to evaluate the pipeline on closed inputs (the real AES-GCM is
a platform primitive); it appends a one-byte tag derived from key and iv
and is of course not secure. -/

/-- Toy AEAD: ciphertext is the plaintext plus a one-byte key/iv tag. -/
def tagAEAD : AEAD where
  enc := fun key iv pt => pt ++ [(key.sum + iv.sum) % 256]
  dec := fun key iv ct =>
    if ct.getLast? = some ((key.sum + iv.sum) % 256) then some ct.dropLast else none
  dec_enc := by
    intro key iv pt
    simp [List.getLast?_concat, List.dropLast_concat]
  enc_lt := by
    intro key iv pt h b hb
    rcases List.mem_append.mp hb with hb | hb
    · exact h b hb
    · have hb2 : b = (key.sum + iv.sum) % 256 := by simpa using hb
      omega

/-- Concrete primitives for closed evaluations. -/
def tagPrims : CryptoPrims where
  aead := tagAEAD
  pbkdf2 := fun password salt => utf8Encode password ++ salt
  sha256 := fun password => utf8Encode password

/-! ## Application state and operations (the page component) -/

/-- A note (src/types/note.ts).  The `Date` fields are orthogonal to the
protection subsystem and omitted; `password` is the optional stored
password hash. -/
structure Note where
  id : String
  title : String
  content : String
  isPinned : Bool
  isPasswordProtected : Bool
  password : Option String
  tags : List String
deriving Repr, DecidableEq

/-- JS template-literal interpolation of the optional password field:
`undefined` prints as the literal string `"undefined"`. -/
def jsTemplate : Option String → String
  | some s => s
  | none => "undefined"

/-- JS truthiness of the optional password field (`undefined` and the
empty string are falsy). -/
def passwordTruthy : Option String → Bool
  | some s => s != ""
  | none => false

/-- The component state relevant to the protection subsystem: the note
collection, the session `unlockedNotes` set, and the active note. -/
structure AppState where
  notes : List Note
  unlocked : Finset String
  activeNote : Option Note
deriving DecidableEq

/-- `notes.find(note => note.id === noteId)`. -/
def findNote (notes : List Note) (noteId : String) : Option Note :=
  notes.find? (fun n => n.id == noteId)

/-- `createNewNote` (the fresh id models `Date.now().toString()`). -/
def createNewNote (s : AppState) (newId : String) : AppState :=
  let newNote : Note :=
    { id := newId, title := "Untitled Note", content := "", isPinned := false,
      isPasswordProtected := false, password := none, tags := [] }
  { s with notes := newNote :: s.notes, activeNote := some newNote }

/-- `duplicateNote`.  `promptPassword` models the `window.prompt` result
(`none` covers both cancel and empty input, which the source treats
alike), `newId` models `Date.now().toString()`; alerts have no state
effect. -/
def duplicateNote (P : CryptoPrims) (s : AppState) (noteId : String)
    (promptPassword : Option String) (newId : String) : AppState :=
  match findNote s.notes noteId with
  | none => s
  | some originalNote =>
    let contentForCopy? : Option String :=
      if originalNote.isPasswordProtected ∧ originalNote.id ∉ s.unlocked then
        match promptPassword with
        | none => none
        | some password =>
          let hashRejected : Bool :=
            match originalNote.password with
            | some storedHash =>
                storedHash != "" && hashPassword P password != storedHash
            | none => false
          if hashRejected then none
          else
            match decrypt P originalNote.content password with
            | .ok c => some c
            | .error _ => none
      else some originalNote.content
    match contentForCopy? with
    | none => s
    | some contentForCopy =>
      let duplicatedNote : Note :=
        { originalNote with
            id := newId
            title := originalNote.title ++ " (Copy)"
            content := contentForCopy
            isPinned := false
            isPasswordProtected := true
            password := some (jsTemplate originalNote.password) }
      { s with notes := duplicatedNote :: s.notes, activeNote := some duplicatedNote }

/-- `updateNote`: replace the note with the same id, set it active. -/
def updateNote (s : AppState) (updatedNote : Note) : AppState :=
  { s with
      notes := s.notes.map (fun note =>
        if note.id == updatedNote.id then updatedNote else note)
      activeNote := some updatedNote }

/-- Every `onUpdateNote` call site in the UI (editor content edits, title
edits, toolbar tag/summary updates) spreads the active note and changes
only content, title or tags — never the protection fields. -/
def updateActive (s : AppState) (content title : String) (tags : List String) : AppState :=
  match s.activeNote with
  | none => s
  | some a => updateNote s { a with content := content, title := title, tags := tags }

/-- `deleteNote`: drop the note and its id from the unlocked set. -/
def deleteNote (s : AppState) (noteId : String) : AppState :=
  let remainingNotes := s.notes.filter (fun note => note.id != noteId)
  { notes := remainingNotes
    unlocked := s.unlocked.erase noteId
    activeNote :=
      match s.activeNote with
      | some a => if a.id == noteId then remainingNotes.head? else s.activeNote
      | none => none }

/-- `deleteAllNotes` behind its confirm dialog. -/
def deleteAllNotes (s : AppState) (confirm : Bool) : AppState :=
  if confirm then { notes := [], unlocked := ∅, activeNote := none } else s

/-- `togglePin`. -/
def togglePin (s : AppState) (noteId : String) : AppState :=
  { s with notes := s.notes.map (fun n =>
      if n.id == noteId then { n with isPinned := !n.isPinned } else n) }

/-- `handleNoteSelect`: locked protected notes only open the password
dialog (no state change here); others become active. -/
def handleNoteSelect (s : AppState) (note : Note) : AppState :=
  if note.isPasswordProtected ∧ note.id ∉ s.unlocked then s
  else { s with activeNote := some note }

/-- `togglePasswordProtection`: the remove branch behind its confirm
dialog clears the protection fields and drops the id from the unlocked
set; the add branch only opens the password dialog (no state change). -/
def togglePasswordProtection (s : AppState) (noteId : String) (confirm : Bool) : AppState :=
  match findNote s.notes noteId with
  | none => s
  | some note =>
    if note.isPasswordProtected then
      if confirm then
        { s with
            notes := s.notes.map (fun n =>
              if n.id == noteId then { n with isPasswordProtected := false, password := none }
              else n)
            unlocked := s.unlocked.erase noteId }
      else s
    else s

/-- `handlePasswordSubmit` in mode `"set"`: encrypt the note content,
store the hash, keep the note locked; the second component is the dialog
error (`none` means success).  `salt` and `iv` model the fresh
`crypto.getRandomValues` outputs inside `encrypt`. -/
def handleSetPassword (P : CryptoPrims) (salt iv : Bytes) (s : AppState)
    (noteId password : String) : AppState × Option String :=
  match findNote s.notes noteId with
  | none => (s, some "Note not found")
  | some note =>
    let encryptedContent := encrypt P salt iv note.content password
    let passwordHash := hashPassword P password
    ({ notes := s.notes.map (fun n =>
          if n.id == noteId then
            { n with
                content := encryptedContent
                isPasswordProtected := true
                password := some passwordHash }
          else n)
       unlocked := s.unlocked.erase noteId
       activeNote :=
         match s.activeNote with
         | some a =>
           if a.id == noteId then
             some { note with
                 content := encryptedContent
                 isPasswordProtected := true
                 password := some passwordHash }
           else s.activeNote
         | none => s.activeNote }, none)

/-- `handlePasswordSubmit` in mode `"verify"`: reject on missing or
mismatched hash before ever calling `decrypt`; on success add the id to
the unlocked set and expose the plaintext through the active note. -/
def handleVerifyPassword (P : CryptoPrims) (s : AppState)
    (noteId password : String) : AppState × Option String :=
  match findNote s.notes noteId with
  | none => (s, some "Note not found")
  | some note =>
    match note.password with
    | none => (s, some "No password set for this note")
    | some storedHash =>
      if storedHash = "" then (s, some "No password set for this note")
      else if hashPassword P password ≠ storedHash then (s, some "Incorrect password")
      else
        match decrypt P note.content password with
        | .error e => (s, some e)
        | .ok decryptedContent =>
          ({ notes := s.notes
             unlocked := insert noteId s.unlocked
             activeNote := some { note with content := decryptedContent } }, none)

/-- The toolbar `onRelock` handler: drop the active note id from the
unlocked set. -/
def relock (s : AppState) : AppState :=
  match s.activeNote with
  | none => s
  | some activeNote => { s with unlocked := s.unlocked.erase activeNote.id }

/-! ## Reachable states and the unlocked-set invariant -/

/-- One UI-triggerable transition of the component state.  The freshness
side conditions model `Date.now().toString()` producing an unused id, and
`select` only ever receives notes of the current list. -/
inductive Step (P : CryptoPrims) : AppState → AppState → Prop where
  | create (s : AppState) (newId : String)
      (hfresh : ∀ n ∈ s.notes, n.id ≠ newId) :
      Step P s (createNewNote s newId)
  | duplicate (s : AppState) (noteId : String) (promptPassword : Option String)
      (newId : String) (hfresh : ∀ n ∈ s.notes, n.id ≠ newId) :
      Step P s (duplicateNote P s noteId promptPassword newId)
  | update (s : AppState) (content title : String) (tags : List String) :
      Step P s (updateActive s content title tags)
  | delete (s : AppState) (noteId : String) : Step P s (deleteNote s noteId)
  | deleteAll (s : AppState) (confirm : Bool) : Step P s (deleteAllNotes s confirm)
  | pin (s : AppState) (noteId : String) : Step P s (togglePin s noteId)
  | select (s : AppState) (note : Note) (hmem : note ∈ s.notes) :
      Step P s (handleNoteSelect s note)
  | toggleProtection (s : AppState) (noteId : String) (confirm : Bool) :
      Step P s (togglePasswordProtection s noteId confirm)
  | setPassword (s : AppState) (salt iv : Bytes) (noteId password : String) :
      Step P s (handleSetPassword P salt iv s noteId password).1
  | verifyPassword (s : AppState) (noteId password : String) :
      Step P s (handleVerifyPassword P s noteId password).1
  | doRelock (s : AppState) : Step P s (relock s)

/-- Session-start state: no notes, empty unlocked set. -/
def initState : AppState := { notes := [], unlocked := ∅, activeNote := none }

/-- States reachable from session start through UI transitions. -/
inductive Reachable (P : CryptoPrims) : AppState → Prop where
  | init : Reachable P initState
  | step {s t : AppState} : Reachable P s → Step P s t → Reachable P t

/-- The protection invariant: every unlocked id belongs to a protected
note; a stored password hash implies the protected flag; the active note
respects both; and note ids are distinct. -/
structure Inv (s : AppState) : Prop where
  unlockedProtected : ∀ id ∈ s.unlocked,
    ∃ n ∈ s.notes, n.id = id ∧ n.isPasswordProtected = true
  passwordProtected : ∀ n ∈ s.notes, n.password ≠ none → n.isPasswordProtected = true
  active : ∀ a, s.activeNote = some a →
    (a.password ≠ none → a.isPasswordProtected = true) ∧
    (a.id ∈ s.unlocked → a.isPasswordProtected = true)
  nodup : (s.notes.map Note.id).Nodup

theorem findNote_mem {notes : List Note} {noteId : String} {note : Note}
    (h : findNote notes noteId = some note) : note ∈ notes ∧ note.id = noteId := by
  unfold findNote at h
  refine ⟨List.mem_of_find?_eq_some h, ?_⟩
  have hp := List.find?_some h
  simpa using hp

theorem id_unique {notes : List Note} (hnodup : (notes.map Note.id).Nodup) :
    ∀ n ∈ notes, ∀ m ∈ notes, n.id = m.id → n = m := by
  induction notes with
  | nil => simp
  | cons x xs ih =>
    simp only [List.map_cons, List.nodup_cons] at hnodup
    intro n hn m hm heq
    rcases List.mem_cons.mp hn with h1 | h1
    · rcases List.mem_cons.mp hm with h2 | h2
      · rw [h1, h2]
      · exfalso
        apply hnodup.1
        have hxm : Note.id x = Note.id m := by rw [← h1]; exact heq
        rw [hxm]
        exact List.mem_map_of_mem Note.id h2
    · rcases List.mem_cons.mp hm with h2 | h2
      · exfalso
        apply hnodup.1
        have hxn : Note.id x = Note.id n := by rw [← h2]; exact heq.symm
        rw [hxn]
        exact List.mem_map_of_mem Note.id h1
      · exact ih hnodup.2 n h1 m h2 heq

theorem ids_map_replace (notes : List Note) (noteId : String) (g : Note → Note)
    (hg : ∀ n, (g n).id = n.id) :
    ((notes.map (fun n => if n.id == noteId then g n else n)).map Note.id) =
      notes.map Note.id := by
  rw [List.map_map]
  apply List.map_congr_left
  intro n _
  by_cases h : n.id == noteId <;> simp [Function.comp, h, hg n]

theorem inv_create {s : AppState} (hs : Inv s) (newId : String)
    (hfresh : ∀ n ∈ s.notes, n.id ≠ newId) : Inv (createNewNote s newId) := by
  constructor
  · intro id hid
    rcases hs.unlockedProtected id hid with ⟨n, hn, hnid, hflag⟩
    exact ⟨n, by simp [createNewNote, hn], hnid, hflag⟩
  · intro n hn hp
    simp only [createNewNote, List.mem_cons] at hn
    rcases hn with rfl | hn
    · simp at hp
    · exact hs.passwordProtected n hn hp
  · intro a ha
    simp only [createNewNote, Option.some.injEq] at ha
    constructor
    · intro hp
      rw [← ha] at hp
      simp at hp
    · intro hmem
      exfalso
      rw [← ha] at hmem
      simp only [createNewNote] at hmem
      rcases hs.unlockedProtected _ hmem with ⟨n, hn, hnid, _⟩
      exact hfresh n hn hnid
  · simp only [createNewNote, List.map_cons, List.nodup_cons]
    refine ⟨?_, hs.nodup⟩
    intro hmem
    rcases List.mem_map.mp hmem with ⟨n, hn, hnid⟩
    exact hfresh n hn hnid

theorem inv_deleteAll {s : AppState} (hs : Inv s) (confirm : Bool) :
    Inv (deleteAllNotes s confirm) := by
  unfold deleteAllNotes
  split
  · constructor <;> simp
  · exact hs

theorem inv_relock {s : AppState} (hs : Inv s) : Inv (relock s) := by
  unfold relock
  rcases hact : s.activeNote with _ | b
  · exact hs
  · constructor
    · intro id hid
      exact hs.unlockedProtected id (Finset.mem_of_mem_erase hid)
    · exact hs.passwordProtected
    · intro a ha
      injection ha with ha
      subst ha
      constructor
      · exact (hs.active b hact).1
      · intro hmem
        exact absurd (Finset.mem_erase.mp hmem).1 (by simp)
    · exact hs.nodup

theorem pin_fields (noteId : String) (n : Note) :
    (if n.id == noteId then { n with isPinned := !n.isPinned } else n).id = n.id ∧
    (if n.id == noteId then
      { n with isPinned := !n.isPinned } else n).isPasswordProtected =
        n.isPasswordProtected ∧
    (if n.id == noteId then { n with isPinned := !n.isPinned } else n).password =
      n.password := by
  by_cases h : n.id == noteId <;> simp [h]

theorem inv_pin {s : AppState} (hs : Inv s) (noteId : String) : Inv (togglePin s noteId) := by
  constructor
  · intro id hid
    rcases hs.unlockedProtected id hid with ⟨n, hn, hnid, hflag⟩
    refine ⟨_, List.mem_map_of_mem _ hn, ?_, ?_⟩
    · rw [(pin_fields noteId n).1, hnid]
    · rw [(pin_fields noteId n).2.1, hflag]
  · intro n hn hp
    rcases List.mem_map.mp hn with ⟨m, hm, rfl⟩
    rw [(pin_fields noteId m).2.1]
    exact hs.passwordProtected m hm (by rw [← (pin_fields noteId m).2.2]; exact hp)
  · intro a ha
    exact hs.active a ha
  · have := ids_map_replace s.notes noteId
      (fun n => { n with isPinned := !n.isPinned }) (fun n => rfl)
    simp only [togglePin]
    rw [this]
    exact hs.nodup

theorem inv_delete {s : AppState} (hs : Inv s) (noteId : String) :
    Inv (deleteNote s noteId) := by
  have hfilter : ∀ n ∈ s.notes, n.id ≠ noteId →
      n ∈ s.notes.filter (fun note => note.id != noteId) := by
    intro n hn hne
    exact List.mem_filter.mpr ⟨hn, by simpa using hne⟩
  have hfilter_sub : ∀ n ∈ s.notes.filter (fun note => note.id != noteId), n ∈ s.notes :=
    fun n hn => (List.mem_filter.mp hn).1
  constructor
  · intro id hid
    have hid2 := Finset.mem_erase.mp hid
    rcases hs.unlockedProtected id hid2.2 with ⟨n, hn, hnid, hflag⟩
    exact ⟨n, hfilter n hn (by rw [hnid]; exact hid2.1), hnid, hflag⟩
  · intro n hn hp
    exact hs.passwordProtected n (hfilter_sub n hn) hp
  · intro a ha
    simp only [deleteNote] at ha
    rcases hact : s.activeNote with _ | b
    · rw [hact] at ha
      simp at ha
    · rw [hact] at ha
      by_cases hb : (b.id == noteId) = true
      · simp only [hb, if_true] at ha
        have hmem : a ∈ s.notes.filter (fun note => note.id != noteId) :=
          List.mem_of_mem_head? ha
        have hmem2 := hfilter_sub a hmem
        have hane : a.id ≠ noteId := by
          have := (List.mem_filter.mp hmem).2
          simpa using this
        constructor
        · exact hs.passwordProtected a hmem2
        · intro hmemu
          have hu := (Finset.mem_erase.mp hmemu).2
          rcases hs.unlockedProtected a.id hu with ⟨m, hm, hmid, hmflag⟩
          have : a = m := id_unique hs.nodup a hmem2 m hm hmid.symm
          rw [this]
          exact hmflag
      · simp only [hb, if_false] at ha
        injection ha with ha
        subst ha
        constructor
        · exact (hs.active b hact).1
        · intro hmemu
          exact (hs.active b hact).2 (Finset.mem_erase.mp hmemu).2
  · exact hs.nodup.sublist (List.Sublist.map _ (List.filter_sublist _))

theorem replace_eq_of_ne {noteId : String} (g : Note → Note) {n : Note}
    (hne : n.id ≠ noteId) : (if n.id == noteId then g n else n) = n := by
  rw [if_neg]
  simp [hne]

theorem replace_eq_of_eq {noteId : String} (g : Note → Note) {n : Note}
    (heq : n.id = noteId) : (if n.id == noteId then g n else n) = g n := by
  rw [if_pos]
  simp [heq]

theorem mem_map_replace_of_ne {notes : List Note} {noteId : String} {g : Note → Note}
    {n : Note} (hn : n ∈ notes) (hne : n.id ≠ noteId) :
    n ∈ notes.map (fun m => if m.id == noteId then g m else m) := by
  rw [show n = (if n.id == noteId then g n else n) from (replace_eq_of_ne g hne).symm]
  exact List.mem_map_of_mem _ hn

theorem inv_select {s : AppState} (hs : Inv s) (note : Note) (hmem : note ∈ s.notes) :
    Inv (handleNoteSelect s note) := by
  unfold handleNoteSelect
  split
  · exact hs
  · constructor
    · exact hs.unlockedProtected
    · exact hs.passwordProtected
    · intro a ha
      injection ha with ha
      subst ha
      constructor
      · intro hp
        exact hs.passwordProtected note hmem hp
      · intro hmemu
        rcases hs.unlockedProtected note.id hmemu with ⟨m, hm, hmid, hmflag⟩
        have heq : note = m := id_unique hs.nodup note hmem m hm hmid.symm
        rw [heq]
        exact hmflag
    · exact hs.nodup

theorem inv_toggleProtection {s : AppState} (hs : Inv s) (noteId : String) (confirm : Bool) :
    Inv (togglePasswordProtection s noteId confirm) := by
  unfold togglePasswordProtection
  split
  · exact hs
  · split
    · split
      · constructor
        · intro id hid
          have hid2 := Finset.mem_erase.mp hid
          rcases hs.unlockedProtected id hid2.2 with ⟨n, hn, hnid, hflag⟩
          exact ⟨n, mem_map_replace_of_ne hn (by rw [hnid]; exact hid2.1), hnid, hflag⟩
        · intro n hn hp
          rcases List.mem_map.mp hn with ⟨m, hm, rfl⟩
          by_cases hmne : m.id = noteId
          · rw [if_pos (by simp [hmne] : (m.id == noteId) = true)] at hp
            simp at hp
          · rw [if_neg (by simp [hmne] : ¬ (m.id == noteId) = true)] at hp ⊢
            exact hs.passwordProtected m hm hp
        · intro a ha
          have h3 := hs.active a ha
          exact ⟨h3.1, fun hmemu => h3.2 (Finset.mem_erase.mp hmemu).2⟩
        · show (List.map Note.id (s.notes.map (fun n => if n.id == noteId then { n with isPasswordProtected := false, password := none } else n))).Nodup
          rw [ids_map_replace s.notes noteId
            (fun n => { n with isPasswordProtected := false, password := none })
            (fun n => rfl)]
          exact hs.nodup
      · exact hs
    · exact hs

theorem ids_map_update (notes : List Note) (upd : Note) :
    ((notes.map (fun note => if note.id == upd.id then upd else note)).map Note.id) =
      notes.map Note.id := by
  rw [List.map_map]
  apply List.map_congr_left
  intro n _
  by_cases h : n.id = upd.id
  · simp [Function.comp, h]
  · simp [Function.comp, h]

theorem inv_updateNote {s : AppState} (hs : Inv s) (a : Note) (hact : s.activeNote = some a)
    (upd : Note) (hid : upd.id = a.id) (hflag : upd.isPasswordProtected = a.isPasswordProtected)
    (hpw : upd.password = a.password) : Inv (updateNote s upd) := by
  have h3 := hs.active a hact
  constructor
  · intro id hidm
    rcases hs.unlockedProtected id hidm with ⟨n, hn, hnid, hnflag⟩
    by_cases hne : n.id = upd.id
    · refine ⟨upd, List.mem_map.mpr ⟨n, hn, ?_⟩, by rw [← hne]; exact hnid, ?_⟩
      · rw [if_pos (by simp [hne] : (n.id == upd.id) = true)]
      · rw [hflag]
        apply h3.2
        rw [← hid, ← hne, hnid]
        exact hidm
    · refine ⟨n, List.mem_map.mpr ⟨n, hn, ?_⟩, hnid, hnflag⟩
      rw [if_neg (by simp [hne] : ¬ (n.id == upd.id) = true)]
  · intro n hn hp
    rcases List.mem_map.mp hn with ⟨m, hm, rfl⟩
    by_cases hmne : m.id = upd.id
    · rw [if_pos (by simp [hmne] : (m.id == upd.id) = true)] at hp ⊢
      rw [hflag]
      apply h3.1
      rw [← hpw]
      exact hp
    · rw [if_neg (by simp [hmne] : ¬ (m.id == upd.id) = true)] at hp ⊢
      exact hs.passwordProtected m hm hp
  · intro b hb
    have hb2 : upd = b := by
      simpa [updateNote] using hb
    subst hb2
    constructor
    · intro hp
      rw [hflag]
      apply h3.1
      rw [← hpw]
      exact hp
    · intro hmemu
      rw [hflag]
      apply h3.2
      rw [← hid]
      exact hmemu
  · rw [show (updateNote s upd).notes =
      s.notes.map (fun note => if note.id == upd.id then upd else note) from rfl]
    rw [ids_map_update s.notes upd]
    exact hs.nodup

theorem inv_update {s : AppState} (hs : Inv s) (content title : String) (tags : List String) :
    Inv (updateActive s content title tags) := by
  unfold updateActive
  rcases hact : s.activeNote with _ | a
  · exact hs
  · exact inv_updateNote hs a hact _ rfl rfl rfl

theorem nodup_map_replace {notes : List Note} (hn : (notes.map Note.id).Nodup)
    (noteId : String) (g : Note → Note) (hg : ∀ n, (g n).id = n.id) :
    ((notes.map (fun n => if n.id == noteId then g n else n)).map Note.id).Nodup := by
  rw [ids_map_replace notes noteId g hg]
  exact hn

theorem inv_setPassword {s : AppState} (hs : Inv s) (P : CryptoPrims) (salt iv : Bytes)
    (noteId password : String) : Inv (handleSetPassword P salt iv s noteId password).1 := by
  simp only [handleSetPassword]
  split
  · exact hs
  · next note heq =>
    have hnote := findNote_mem heq
    constructor
    · intro id hid
      have hid2 := Finset.mem_erase.mp hid
      rcases hs.unlockedProtected id hid2.2 with ⟨n, hn, hnid, hflag⟩
      refine ⟨n, List.mem_map.mpr ⟨n, hn, ?_⟩, hnid, hflag⟩
      rw [if_neg (by simp only [hnid, beq_iff_eq]; exact hid2.1)]
    · intro n hn hp
      rcases List.mem_map.mp hn with ⟨m, hm, rfl⟩
      by_cases hmne : (m.id == noteId) = true
      · rw [if_pos hmne]
      · rw [if_neg hmne] at hp ⊢
        exact hs.passwordProtected m hm hp
    · intro a ha
      rcases hact : s.activeNote with _ | b
      · rw [hact] at ha
        simp at ha
      · rw [hact] at ha
        by_cases hb : (b.id == noteId) = true
        · simp only [hb, if_true] at ha
          injection ha with ha
          subst ha
          exact ⟨fun _ => rfl, fun _ => rfl⟩
        · simp only [hb, if_false] at ha
          injection ha with ha
          subst ha
          constructor
          · exact (hs.active b hact).1
          · intro hmemu
            exact (hs.active b hact).2 (Finset.mem_erase.mp hmemu).2
    · exact nodup_map_replace hs.nodup noteId _ (fun n => rfl)

theorem inv_verifyPassword {s : AppState} (hs : Inv s) (P : CryptoPrims)
    (noteId password : String) : Inv (handleVerifyPassword P s noteId password).1 := by
  unfold handleVerifyPassword
  split
  · exact hs
  · next note heq =>
    have hnote := findNote_mem heq
    split
    · exact hs
    · next storedHash hpw =>
      split
      · exact hs
      · split
        · exact hs
        · split
          · exact hs
          · constructor
            · intro id hid
              rcases Finset.mem_insert.mp hid with rfl | hid2
              · exact ⟨note, hnote.1, hnote.2,
                  hs.passwordProtected note hnote.1 (by rw [hpw]; simp)⟩
              · exact hs.unlockedProtected id hid2
            · exact hs.passwordProtected
            · intro a ha
              injection ha with ha
              subst ha
              have hflag : note.isPasswordProtected = true :=
                hs.passwordProtected note hnote.1 (by rw [hpw]; simp)
              exact ⟨fun _ => hflag, fun _ => hflag⟩
            · exact hs.nodup

theorem inv_duplicate {s : AppState} (hs : Inv s) (P : CryptoPrims) (noteId : String)
    (promptPassword : Option String) (newId : String)
    (hfresh : ∀ n ∈ s.notes, n.id ≠ newId) :
    Inv (duplicateNote P s noteId promptPassword newId) := by
  simp only [duplicateNote]
  split
  · exact hs
  · next originalNote heq =>
    split
    · exact hs
    · next contentForCopy heq2 =>
      constructor
      · intro id hid
        rcases hs.unlockedProtected id hid with ⟨n, hn, hnid, hflag⟩
        exact ⟨n, List.mem_cons_of_mem _ hn, hnid, hflag⟩
      · intro n hn hp
        rcases List.mem_cons.mp hn with rfl | hn
        · rfl
        · exact hs.passwordProtected n hn hp
      · intro a ha
        injection ha with ha
        subst ha
        exact ⟨fun _ => rfl, fun _ => rfl⟩
      · simp only [List.map_cons, List.nodup_cons]
        refine ⟨?_, hs.nodup⟩
        intro hmem
        rcases List.mem_map.mp hmem with ⟨n, hn, hnid⟩
        exact hfresh n hn hnid

theorem inv_step {P : CryptoPrims} {s t : AppState} (hs : Inv s) (h : Step P s t) : Inv t := by
  cases h with
  | create newId hfresh => exact inv_create hs newId hfresh
  | duplicate noteId pw newId hfresh => exact inv_duplicate hs P noteId pw newId hfresh
  | update content title tags => exact inv_update hs content title tags
  | delete noteId => exact inv_delete hs noteId
  | deleteAll confirm => exact inv_deleteAll hs confirm
  | pin noteId => exact inv_pin hs noteId
  | select note hmem => exact inv_select hs note hmem
  | toggleProtection noteId confirm => exact inv_toggleProtection hs noteId confirm
  | setPassword salt iv noteId password => exact inv_setPassword hs P salt iv noteId password
  | verifyPassword noteId password => exact inv_verifyPassword hs P noteId password
  | doRelock => exact inv_relock hs

theorem inv_init : Inv initState := by
  constructor <;> simp [initState]

theorem reachable_inv {P : CryptoPrims} {s : AppState} (h : Reachable P s) : Inv s := by
  induction h with
  | init => exact inv_init
  | step _ hstep ih => exact inv_step ih hstep

/-! ## Claim theorems -/

/-- C3: for every plaintext string and password, and for any (16-byte)
salt and (12-byte) nonce chosen inside `encrypt`, decrypting the
encrypted envelope with the same password returns exactly the
plaintext. -/
theorem c3_encrypt_decrypt_roundtrip (P : CryptoPrims) (salt iv : Bytes)
    (content password : String) (hs : salt.length = 16) (hi : iv.length = 12)
    (hsb : ∀ b ∈ salt, b < 256) (hib : ∀ b ∈ iv, b < 256) :
    decrypt P (encrypt P salt iv content password) password = Except.ok content :=
  decrypt_encrypt P salt iv content password hs hi hsb hib

theorem c3_encrypt_decrypt_roundtrip_witness :
    (List.replicate 16 0 : Bytes).length = 16 ∧
    (List.replicate 12 0 : Bytes).length = 12 ∧
    decrypt tagPrims
      (encrypt tagPrims (List.replicate 16 0) (List.replicate 12 0) "Hello world" "pw")
      "pw" = Except.ok "Hello world" := by
  refine ⟨by decide, by decide, ?_⟩
  exact c3_encrypt_decrypt_roundtrip tagPrims (List.replicate 16 0) (List.replicate 12 0)
    "Hello world" "pw" (by decide) (by decide) (by decide) (by decide)

/-- C6: for every password and 16-byte salt, the parameters the source
passes to `crypto.subtle.deriveKey` are PBKDF2 over SHA-256 with 100000
(hence at least 100000) iterations, yielding a non-extractable 256-bit
AES-GCM key whose only usages are encrypt and decrypt. -/
theorem c6_deriveKey_params (password : String) (salt : Bytes) (hs : salt.length = 16) :
    (deriveKey password salt).algorithm.name = "PBKDF2" ∧
    (deriveKey password salt).algorithm.iterations ≥ 100000 ∧
    (deriveKey password salt).algorithm.hash = "SHA-256" ∧
    (deriveKey password salt).algorithm.salt = salt ∧
    (deriveKey password salt).derivedKeyType.name = "AES-GCM" ∧
    (deriveKey password salt).derivedKeyType.length = 256 ∧
    (deriveKey password salt).extractable = false ∧
    (deriveKey password salt).keyUsages = ["encrypt", "decrypt"] :=
  ⟨rfl, Nat.le_refl _, rfl, rfl, rfl, rfl, rfl, rfl⟩

theorem c6_deriveKey_params_witness :
    (List.replicate 16 0 : Bytes).length = 16 ∧
    (deriveKey "pw" (List.replicate 16 0)).algorithm.iterations ≥ 100000 ∧
    (deriveKey "pw" (List.replicate 16 0)).extractable = false :=
  ⟨by decide,
    (c6_deriveKey_params "pw" (List.replicate 16 0) (by decide)).2.1,
    (c6_deriveKey_params "pw" (List.replicate 16 0) (by decide)).2.2.2.2.2.2.1⟩

/-- C7: the pre-base64 envelope layout is salt (16 bytes) followed by iv
(12 bytes) followed by ciphertext-with-tag, and the decoded envelope is
split by `splitEnvelope` (the prelude of `decrypt`) at exactly offsets 16
and 28 back into those components; `fromBase64` accepts the URL-safe,
unpadded variant and normalizes it to the same bytes; `toBase64` always
emits standard padded base64. -/
theorem c7_envelope_layout_base64 (P : CryptoPrims) (salt iv : Bytes)
    (content password : String) (bs : Bytes)
    (hs : salt.length = 16) (hi : iv.length = 12)
    (hsb : ∀ b ∈ salt, b < 256) (hib : ∀ b ∈ iv, b < 256)
    (hbs : ∀ b ∈ bs, b < 256) :
    (∃ ct, encrypt P salt iv content password = toBase64 (salt ++ iv ++ ct) ∧
      (fromBase64 (encrypt P salt iv content password)).map splitEnvelope =
        some (salt, iv, ct)) ∧
    fromBase64 (toUrlSafeUnpadded (toBase64 bs)) = some bs ∧
    isStandardPaddedBase64 (toBase64 bs) = true := by
  refine ⟨⟨P.aead.enc (P.pbkdf2 password salt) iv (utf8Encode content), rfl, ?_⟩,
    fromBase64_urlSafe bs hbs, toBase64_standard bs hbs⟩
  rw [show encrypt P salt iv content password =
    toBase64 (salt ++ iv ++ P.aead.enc (P.pbkdf2 password salt) iv (utf8Encode content))
    from rfl]
  rw [fromBase64_toBase64 _ (encrypt_combined_lt P salt iv content password hsb hib)]
  rw [Option.map_some', splitEnvelope_append _ _ _ hs hi]

theorem c7_envelope_layout_base64_witness :
    fromBase64 (toUrlSafeUnpadded (toBase64 [0, 255, 10])) = some [0, 255, 10] ∧
    isStandardPaddedBase64 (toBase64 [0, 255, 10]) = true := by
  have h := c7_envelope_layout_base64 tagPrims (List.replicate 16 0) (List.replicate 12 0)
    "x" "pw" [0, 255, 10] (by decide) (by decide) (by decide) (by decide) (by decide)
  exact ⟨h.2.1, h.2.2⟩

/-- C8 counterexample: there is no distinct FormatError.  `decrypt`
raises the same single generic error for an envelope too short to
contain the 16-byte salt and 12-byte iv ("AAAA" decodes to 3 bytes) as
for an authentication failure (wrong password on a valid envelope): the
two error values are identical. -/
theorem c8_no_distinct_format_error :
    decrypt tagPrims "AAAA" "pw" = Except.error "Invalid password or corrupted data" ∧
    decrypt tagPrims
      (encrypt tagPrims (List.replicate 16 0) (List.replicate 12 0) "Hi" "pwA") "pwB" =
      Except.error "Invalid password or corrupted data" := by
  constructor
  · rfl
  · rfl

/-- C8 amended: every failure of `decrypt` — malformed or too-short
envelope as well as failed authentication — surfaces as the one generic
error "Invalid password or corrupted data" (the cases are not
distinguished by a separate FormatError), and no partial or garbage
plaintext is ever returned on failure: each run is either a successful
plaintext or exactly that error. -/
theorem c8_single_generic_error (P : CryptoPrims) (encryptedContent password : String) :
    ((∃ s, decrypt P encryptedContent password = Except.ok s) ∨
      decrypt P encryptedContent password = Except.error decryptErrorMsg) ∧
    (fromBase64 encryptedContent = none →
      decrypt P encryptedContent password = Except.error decryptErrorMsg) :=
  ⟨decrypt_ok_or_generic_error P encryptedContent password,
    decrypt_malformed P encryptedContent password⟩

theorem c8_single_generic_error_witness :
    fromBase64 "!!!" = none ∧
    decrypt tagPrims "!!!" "pw" = Except.error decryptErrorMsg := by
  have h := c8_single_generic_error tagPrims "!!!" "pw"
  exact ⟨by decide, h.2 (by decide)⟩

theorem findNote_map (notes : List Note) (noteId : String) (f : Note → Note)
    (hid : ∀ n, (f n).id = n.id) :
    findNote (notes.map f) noteId = (findNote notes noteId).map f := by
  unfold findNote
  induction notes with
  | nil => rfl
  | cons x xs ih =>
    simp only [List.map_cons]
    by_cases h : (x.id == noteId) = true
    · have hfx : ((f x).id == noteId) = true := by rw [hid x]; exact h
      simp only [List.find?, hfx, h, Option.map_some']
    · have hx : (x.id == noteId) = false := by simpa using h
      have hfx : ((f x).id == noteId) = false := by rw [hid x]; exact hx
      simp only [List.find?, hfx, hx]
      exact ih

/-- The note produced by protecting `note` with `password` (fresh salt
and iv), as built in mode "set" of `handlePasswordSubmit`. -/
def protectedNote (P : CryptoPrims) (salt iv : Bytes) (note : Note)
    (password : String) : Note :=
  { note with
      content := encrypt P salt iv note.content password
      isPasswordProtected := true
      password := some (hashPassword P password) }

/-- C4: applying protection (password submit in mode "set") to an
unprotected note replaces its content by the ciphertext envelope of the
old content, marks it protected, stores `hashPassword password` in the
password field, and leaves the id absent from the unlocked set (never
auto-unlocked right after protecting). -/
theorem c4_set_protection (P : CryptoPrims) (salt iv : Bytes) (s : AppState)
    (noteId password : String) (note : Note)
    (hf : findNote s.notes noteId = some note)
    (hunprot : note.isPasswordProtected = false) :
    findNote (handleSetPassword P salt iv s noteId password).1.notes noteId =
      some (protectedNote P salt iv note password) ∧
    noteId ∉ (handleSetPassword P salt iv s noteId password).1.unlocked := by
  have hnote := findNote_mem hf
  have hnotes : (handleSetPassword P salt iv s noteId password).1.notes =
      s.notes.map (fun n =>
        if n.id == noteId then
          { n with
              content := encrypt P salt iv note.content password
              isPasswordProtected := true
              password := some (hashPassword P password) }
        else n) := by
    simp only [handleSetPassword, hf]
  have hunl : (handleSetPassword P salt iv s noteId password).1.unlocked =
      s.unlocked.erase noteId := by
    simp only [handleSetPassword, hf]
  constructor
  · rw [hnotes]
    rw [findNote_map s.notes noteId
      (fun n =>
        if n.id == noteId then
          { n with
              content := encrypt P salt iv note.content password
              isPasswordProtected := true
              password := some (hashPassword P password) }
        else n)
      (fun n => by by_cases hb : (n.id == noteId) = true <;> simp [hb])]
    rw [hf, Option.map_some']
    rw [if_pos (show (note.id == noteId) = true by simp [hnote.2])]
    rfl
  · rw [hunl]
    exact Finset.not_mem_erase noteId s.unlocked

/-- An unprotected note and a one-note state, used for closed
evaluations. -/
def w4Note : Note :=
  { id := "1", title := "T", content := "Plain", isPinned := false,
    isPasswordProtected := false, password := none, tags := [] }

def w4State : AppState := { notes := [w4Note], unlocked := ∅, activeNote := none }

theorem c4_set_protection_witness :
    findNote (handleSetPassword tagPrims (List.replicate 16 0) (List.replicate 12 0)
        w4State "1" "Pw123").1.notes "1" =
      some (protectedNote tagPrims (List.replicate 16 0) (List.replicate 12 0)
        w4Note "Pw123") ∧
    "1" ∉ (handleSetPassword tagPrims (List.replicate 16 0) (List.replicate 12 0)
        w4State "1" "Pw123").1.unlocked := by
  exact c4_set_protection tagPrims (List.replicate 16 0) (List.replicate 12 0)
    w4State "1" "Pw123" w4Note rfl rfl

/-- C5: password verification compares `hashPassword` of the supplied
password with the stored hash first; on mismatch it fails with
"Incorrect password" and an unchanged state for EVERY choice of AEAD and
key-derivation primitive (so decryption is never consulted); on hash
match with successful decryption, the note id is inserted into the
unlocked set and the decrypted plaintext is returned as the active
note's content. -/
theorem c5_verify_and_unlock (P : CryptoPrims) (s : AppState) (noteId password : String)
    (note : Note) (storedHash : String)
    (hf : findNote s.notes noteId = some note)
    (hpw : note.password = some storedHash) (hne : storedHash ≠ "") :
    (hashPassword P password ≠ storedHash →
      ∀ (A : AEAD) (kdf : String → Bytes → Bytes),
        handleVerifyPassword ⟨A, kdf, P.sha256⟩ s noteId password =
          (s, some "Incorrect password")) ∧
    (hashPassword P password = storedHash →
      ∀ dec, decrypt P note.content password = Except.ok dec →
        (handleVerifyPassword P s noteId password).1.unlocked =
            insert noteId s.unlocked ∧
          (handleVerifyPassword P s noteId password).1.activeNote =
            some { note with content := dec } ∧
          (handleVerifyPassword P s noteId password).2 = none) := by
  constructor
  · intro hmis A kdf
    simp only [handleVerifyPassword, hf, hpw]
    rw [if_neg hne, if_pos (show hashPassword (⟨A, kdf, P.sha256⟩ : CryptoPrims) password ≠
      storedHash from hmis)]
  · intro hmatch dec hdec
    simp only [handleVerifyPassword, hf, hpw]
    rw [if_neg hne, if_neg (show ¬ hashPassword P password ≠ storedHash from
      fun hc => hc hmatch)]
    rw [hdec]
    exact ⟨rfl, rfl, rfl⟩

/-- A protected, locked note with a valid envelope and stored hash. -/
def w5Note : Note :=
  { id := "1", title := "T",
    content := encrypt tagPrims (List.replicate 16 0) (List.replicate 12 0)
      "Secret" "Pw123",
    isPinned := false, isPasswordProtected := true,
    password := some (hashPassword tagPrims "Pw123"), tags := [] }

def w5State : AppState := { notes := [w5Note], unlocked := ∅, activeNote := none }

theorem c5_verify_and_unlock_witness :
    handleVerifyPassword tagPrims w5State "1" "Wrong1" =
      (w5State, some "Incorrect password") ∧
    (handleVerifyPassword tagPrims w5State "1" "Pw123").1.unlocked =
      insert "1" w5State.unlocked ∧
    (handleVerifyPassword tagPrims w5State "1" "Pw123").1.activeNote =
      some { w5Note with content := "Secret" } := by
  have h1 := c5_verify_and_unlock tagPrims w5State "1" "Wrong1" w5Note
    (hashPassword tagPrims "Pw123") rfl rfl (by decide)
  have h2 := c5_verify_and_unlock tagPrims w5State "1" "Pw123" w5Note
    (hashPassword tagPrims "Pw123") rfl rfl (by decide)
  have hdec : decrypt tagPrims w5Note.content "Pw123" = Except.ok "Secret" :=
    decrypt_encrypt tagPrims (List.replicate 16 0) (List.replicate 12 0) "Secret" "Pw123"
      (by decide) (by decide) (by decide) (by decide)
  refine ⟨?_, ?_, ?_⟩
  · exact h1.1 (by decide) tagPrims.aead tagPrims.pbkdf2
  · exact (h2.2 rfl "Secret" hdec).1
  · exact (h2.2 rfl "Secret" hdec).2.1

/-- A protected note with a valid envelope and stored hash. -/
def c1Note : Note :=
  { id := "1", title := "T",
    content := encrypt tagPrims (List.replicate 16 0) (List.replicate 12 0)
      "Secret" "Pw123",
    isPinned := false, isPasswordProtected := true,
    password := some (hashPassword tagPrims "Pw123"), tags := [] }

/-- A state in which that note is LOCKED (unlocked set empty). -/
def c1State : AppState := { notes := [c1Note], unlocked := ∅, activeNote := none }

/-- C1 (evaluation at the failing input): `togglePasswordProtection` on a
LOCKED protected note — its id is not in the unlocked set and no
password is supplied anywhere in this flow — succeeds upon mere
confirmation: the note comes out with `isPasswordProtected = false` and
`password = none` while `content` is left as the still-encrypted
envelope; no `StillLocked` failure exists in the code. -/
theorem c1_remove_protection_while_locked :
    c1Note.isPasswordProtected = true ∧
    c1Note.id ∉ c1State.unlocked ∧
    (togglePasswordProtection c1State "1" true).notes =
      [{ c1Note with isPasswordProtected := false, password := none }] ∧
    ({ c1Note with isPasswordProtected := false, password := none } : Note).content =
      c1Note.content := by
  refine ⟨rfl, by simp [c1State], ?_, rfl⟩
  rfl

/-- The envelope stored in the protected note used for the duplication
counterexample. -/
def c2Envelope : String :=
  encrypt tagPrims (List.replicate 16 0) (List.replicate 12 0) "Secret" "Pw123"

def c2Note : Note :=
  { id := "1", title := "T", content := c2Envelope, isPinned := false,
    isPasswordProtected := true, password := some (hashPassword tagPrims "Pw123"),
    tags := [] }

/-- A state in which the protected note is UNLOCKED. -/
def c2State : AppState := { notes := [c2Note], unlocked := {"1"}, activeNote := none }

/-- C2 counterexample: duplicating a protected note whose id IS in the
unlocked set copies the stored ciphertext verbatim — the copy's content
equals the original envelope string byte for byte (original salt and
nonce included), not a fresh re-encryption. -/
theorem c2_duplicate_reuses_envelope :
    ((duplicateNote tagPrims c2State "1" none "2").notes.head?.map Note.content) =
      some c2Note.content ∧
    ((duplicateNote tagPrims c2State "1" none "2").notes.head?.map
      Note.isPasswordProtected) = some true := by
  constructor
  · rfl
  · rfl

/-- C2 amended: duplicating a protected note whose id is in the unlocked
set prepends a copy whose content is the original's STORED content
verbatim (the raw envelope with its salt and nonce bytes — the in-memory
decrypted content is not used and no re-encryption occurs), marked
protected and carrying the JS interpolation of the original's stored
hash. -/
theorem c2_duplicate_unlocked (P : CryptoPrims) (s : AppState) (noteId : String)
    (promptPassword : Option String) (newId : String) (orig : Note)
    (hf : findNote s.notes noteId = some orig)
    (hprot : orig.isPasswordProtected = true) (hunl : orig.id ∈ s.unlocked) :
    (duplicateNote P s noteId promptPassword newId).notes =
      { orig with
          id := newId
          title := orig.title ++ " (Copy)"
          content := orig.content
          isPinned := false
          isPasswordProtected := true
          password := some (jsTemplate orig.password) } :: s.notes := by
  have hcond : ¬(orig.isPasswordProtected = true ∧ orig.id ∉ s.unlocked) :=
    fun hc => hc.2 hunl
  simp only [duplicateNote, hf]
  rw [if_neg hcond]

theorem c2_duplicate_unlocked_witness :
    (duplicateNote tagPrims c2State "1" none "2").notes =
      { c2Note with
          id := "2"
          title := c2Note.title ++ " (Copy)"
          content := c2Note.content
          isPinned := false
          isPasswordProtected := true
          password := some (jsTemplate c2Note.password) } :: c2State.notes := by
  exact c2_duplicate_unlocked tagPrims c2State "1" none "2" c2Note rfl rfl (by decide)

/-- C9: in every state reachable from session start, each id in the
unlocked set belongs to a note whose isPasswordProtected is true; and
the remove-protection operation (on a protected note, confirmed) and
note deletion each leave the affected note's id outside the unlocked
set. -/
theorem c9_unlocked_ids_protected (P : CryptoPrims) (s : AppState)
    (h : Reachable P s) :
    (∀ id ∈ s.unlocked, ∃ n ∈ s.notes, n.id = id ∧ n.isPasswordProtected = true) ∧
    (∀ noteId, noteId ∉ (deleteNote s noteId).unlocked) ∧
    (∀ noteId note, findNote s.notes noteId = some note →
      note.isPasswordProtected = true →
      noteId ∉ (togglePasswordProtection s noteId true).unlocked) := by
  refine ⟨(reachable_inv h).unlockedProtected, ?_, ?_⟩
  · intro noteId
    exact Finset.not_mem_erase noteId s.unlocked
  · intro noteId note hf hprot
    simp only [togglePasswordProtection, hf]
    rw [if_pos hprot, if_pos trivial]
    exact Finset.not_mem_erase noteId s.unlocked

theorem c9_unlocked_ids_protected_witness :
    "n1" ∉ (deleteNote initState "n1").unlocked :=
  (c9_unlocked_ids_protected tagPrims initState Reachable.init).2.1 "n1"

/-- C10: whenever duplication creates a copy, the copy's
isPasswordProtected is true and its password field is the JS
template-literal interpolation of the original's password field; for an
unprotected original the copy keeps the plaintext content, is marked
protected, and — the password field being absent — that interpolation is
the literal string "undefined". -/
theorem c10_duplicate_always_protected (P : CryptoPrims) (s : AppState)
    (noteId : String) (promptPassword : Option String) (newId : String) (orig : Note)
    (hf : findNote s.notes noteId = some orig) :
    (∀ dup, (duplicateNote P s noteId promptPassword newId).notes = dup :: s.notes →
      dup.isPasswordProtected = true ∧ dup.password = some (jsTemplate orig.password)) ∧
    (orig.isPasswordProtected = false →
      (duplicateNote P s noteId promptPassword newId).notes =
        { orig with
            id := newId
            title := orig.title ++ " (Copy)"
            content := orig.content
            isPinned := false
            isPasswordProtected := true
            password := some (jsTemplate orig.password) } :: s.notes) ∧
    (orig.password = none → jsTemplate orig.password = "undefined") := by
  refine ⟨?_, ?_, ?_⟩
  · intro dup hdup
    simp only [duplicateNote, hf] at hdup
    split at hdup
    · exfalso
      have hlen := congrArg List.length hdup
      simp at hlen
    · injection hdup with h1 h2
      exact ⟨by rw [← h1], by rw [← h1]⟩
  · intro hunprot
    have hcond : ¬(orig.isPasswordProtected = true ∧ orig.id ∉ s.unlocked) := by
      intro hc
      rw [hunprot] at hc
      exact absurd hc.1 (by simp)
    simp only [duplicateNote, hf]
    rw [if_neg hcond]
  · intro hnone
    rw [hnone]
    rfl

def w10Note : Note :=
  { id := "1", title := "T", content := "Plain", isPinned := false,
    isPasswordProtected := false, password := none, tags := [] }

def w10State : AppState := { notes := [w10Note], unlocked := ∅, activeNote := none }

theorem c10_duplicate_always_protected_witness :
    (duplicateNote tagPrims w10State "1" none "2").notes =
      { w10Note with
          id := "2"
          title := w10Note.title ++ " (Copy)"
          content := w10Note.content
          isPinned := false
          isPasswordProtected := true
          password := some "undefined" } :: w10State.notes := by
  have h := c10_duplicate_always_protected tagPrims w10State "1" none "2" w10Note rfl
  exact h.2.1 rfl

end Playpower
